import Mathlib

/-!
Verification development for the Form 8-K checker
(`src/form_8k_checker.py`).

The script walks the SEC "latest filings" listing page by page, extracts
one pipe-delimited table row per qualifying filing, merges the freshly
extracted rows with the rows already stored in a GitHub-hosted markdown
file, and writes the merged table back.

The embedding below translates the Python functions into Lean:

* `get_final_string` / `get_final_list` — the merge of new and old rows;
* `get_8ksAux` — the pagination loop of `get_8ks`, with the HTTP layer
  abstracted as a function from a start offset to a fetch outcome and
  the (possibly non-terminating) `while True` loop run on explicit fuel;
* `get_exisiting_entries` — the GitHub read, with the HTTP response
  abstracted as status / ETag header / body text;
* `update_github_file` — the GitHub write payload construction
  (the payload `content` field is modelled before the injective base64
  transport encoding, which no claim concerns);
* `pySplit`, `pySplitlines`, `pyStrip`, `removeCR`, `pyJoin`,
  `pyStrGt` — faithful models of the Python `str.split(sep)`,
  `str.splitlines()`, `str.strip(chars)`, `str.replace('\r', '')`,
  `sep.join(parts)` and lexicographic `>` operations used by the
  script.
-/

/-- Python `s.split(c)` accumulator: `acc` holds the current segment
reversed. `"".split(c) = [""]`, a trailing separator yields a trailing
empty segment. -/
def pySplitAux (c : Char) : List Char → List Char → List (List Char)
  | [], acc => [acc.reverse]
  | x :: xs, acc =>
      if x = c then acc.reverse :: pySplitAux c xs []
      else pySplitAux c xs (x :: acc)

/-- Python `s.split(c)` on a character list. -/
def pySplit (c : Char) (s : List Char) : List (List Char) :=
  pySplitAux c s []

/-- The characters Python `str.splitlines()` treats as line boundaries:
`\n`, `\r`, `\v` (`\x0b`), `\f` (`\x0c`), the separators `\x1c`, `\x1d`,
`\x1e`, next line `\x85`, and the Unicode line and paragraph separators
`\u2028` and `\u2029`. -/
def isLineBreak (c : Char) : Bool :=
  c == '\n' || c == '\r' || c == '\x0b' || c == '\x0c' ||
  c == '\x1c' || c == '\x1d' || c == '\x1e' || c == '\x85' ||
  c == '\u2028' || c == '\u2029'

/-- Drop the `'\r'` of every `'\r'`-`'\n'` pair.  Python
`str.splitlines()` treats the two-character sequence `\r\n` as a single
line boundary; after this collapse the remaining `'\n'` stands for that
boundary and every other boundary character (including a lone `'\r'`)
stands alone, so splitting at single `isLineBreak` characters
afterwards realises exactly Python's boundaries. -/
def collapseCRLF : List Char → List Char
  | [] => []
  | x :: xs =>
      if x == '\r' && xs.head? == some '\n' then collapseCRLF xs
      else x :: collapseCRLF xs

/-- Python `s.splitlines()` accumulator on CRLF-collapsed text: a line
ends at every `isLineBreak` character; a trailing boundary does not
produce a trailing empty line and `"".splitlines() = []`. -/
def splitlinesAux : List Char → List Char → List (List Char)
  | [], [] => []
  | [], acc => [acc.reverse]
  | x :: xs, acc =>
      if isLineBreak x then acc.reverse :: splitlinesAux xs []
      else splitlinesAux xs (x :: acc)

/-- Python `s.splitlines()` on a character list: collapse each `\r\n`
pair to a single boundary, then split at every line-boundary
character. -/
def pySplitlines (s : List Char) : List (List Char) :=
  splitlinesAux (collapseCRLF s) []

/-- Python `s.replace('\r', '')`: removing every occurrence of a single
character is a filter. -/
def removeCR (s : List Char) : List Char :=
  s.filter (fun x => x ≠ '\r')

/-- Python `chars.strip(c)`: drop every leading and every trailing
occurrence of `c`. -/
def pyStrip (c : Char) (s : String) : String :=
  (((s.data.dropWhile (fun x => x = c)).reverse.dropWhile
      (fun x => x = c)).reverse).asString

/-- Python `sep.join(parts)`. -/
def pyJoin (sep : List Char) : List (List Char) → List Char
  | [] => []
  | [x] => x
  | x :: y :: xs => x ++ sep ++ pyJoin sep (y :: xs)

/-- Lexicographic (code-point) comparison of character lists, as a
structurally recursive boolean so that it evaluates by `rfl`.  This is
the order Python uses to compare `str` values. -/
def ltCharsB : List Char → List Char → Bool
  | [], [] => false
  | [], _ :: _ => true
  | _ :: _, [] => false
  | a :: as, b :: bs =>
      if a < b then true
      else if b < a then false
      else ltCharsB as bs

/-- Python string comparison `a > b`. -/
def pyStrGt (a b : String) : Bool :=
  ltCharsB b.data a.data

/-- The field of a pipe-delimited table row at index `i`, as in the
script's `entry.split('|')[2]`.  For a well-formed row
`|name|timestamp|link|` the split is `["", name, timestamp, link, ""]`,
so index 2 is the timestamp.  Python raises `IndexError` when the index
is out of range; the model returns `""` there, and the theorems about
record lists carry an `isRecordLine` hypothesis marking the domain on
which the model and the script agree. -/
def entryField (entry : String) (i : Nat) : String :=
  ((pySplit '|' entry.data).getD i []).asString

/-- A string on which `entry.split('|')[2]` is defined in Python:
splitting on `'|'` yields at least three fields. -/
abbrev isRecordLine (entry : String) : Prop :=
  3 ≤ (pySplit '|' entry.data).length

/-- Every entry of the list is a record line. -/
abbrev recordLines (l : List String) : Prop :=
  ∀ e ∈ l, isRecordLine e

/-- Timestamp order on table rows: `tsGE a b` when the timestamp field
of `b` is at most that of `a` (newest-first, non-increasing). -/
def tsGE (a b : String) : Prop :=
  entryField b 2 ≤ entryField a 2

/-- The `for entry in new_entries` loop of `get_final_string`: append
entries while their timestamp field is strictly greater than the cutoff
(`entry.split('|')[2] > cutoff_timestamp`), `break` at the first entry
that is not. -/
def takeNewer (cutoff : String) : List String → List String
  | [] => []
  | entry :: rest =>
      if pyStrGt (entryField entry 2) cutoff then entry :: takeNewer cutoff rest
      else []

/-- The `final_list` computed by `get_final_string new_entries
old_entries`: if there are old entries, the cutoff is the timestamp
field of the first old entry and the kept prefix of `new_entries` is
prepended to all of `old_entries`; otherwise the result is just
`new_entries`.  (Python's `if old_entries:` is truthiness: the empty
list takes the else branch.) -/
def get_final_list (new_entries old_entries : List String) : List String :=
  match old_entries with
  | [] => new_entries
  | old0 :: olds => takeNewer (entryField old0 2) new_entries ++ (old0 :: olds)

/-- The string returned by `get_final_string`: `'\n'.join(final_list)`. -/
def get_final_string (new_entries old_entries : List String) : String :=
  (pyJoin ['\n'] ((get_final_list new_entries old_entries).map String.data)).asString

/-- One extracted filing: company name, canonical timestamp, markdown
link, the three fields `get_filing_info` extracts from a row pair. -/
structure Record where
  name : String
  timestamp : String
  link : String
deriving DecidableEq, Repr

/-- The table row `get_filing_info` renders for a record —
`f"|{company}|{date_time}|{full_url}|"` — without the trailing
newline, which the caller's `splitlines` discards again. -/
def recordLine (r : Record) : String :=
  "|" ++ r.name ++ "|" ++ r.timestamp ++ "|" ++ r.link ++ "|"

/-- Reading the three fields of a table row back, with the
`entry.split('|')[i]` indexing `get_final_string` uses (field 2 is the
timestamp). -/
def parseLine (entry : String) : Record :=
  { name := entryField entry 1
    timestamp := entryField entry 2
    link := entryField entry 3 }

/-- A record field that survives the table format: it contains no field
separator `'|'` and none of the characters `str.splitlines()` treats as
a line boundary (which also rules out the `'\r'` the reader strips). -/
abbrev goodField (s : String) : Prop :=
  '|' ∉ s.data ∧ ∀ c ∈ s.data, isLineBreak c = false

/-- All three fields of the record survive the table format. -/
abbrev goodRecord (r : Record) : Prop :=
  goodField r.name ∧ goodField r.timestamp ∧ goodField r.link

/-- The tracked item code (`TESTING` is `False` in the source). -/
def ITEM : String := "1.05"

/-- Path of the GitHub file holding the stored table. -/
def FILE_PATH : String := "8-Ks.md"

/-- Page size of the SEC listing (one of 10, 20, 40, 80, 100). -/
def FILINGS_PER_PAGE : Nat := 100

/-- The `HEADING` constant, parameterised by the
`datetime.now().strftime('%Y-%m-%d %H:%M:%S')` string interpolated into
it at process start. -/
def HEADING (now : String) : String :=
  "# List of Form 8-Ks with item " ++ ITEM ++ "\n" ++
  "Last checked " ++ now ++ "\n\n" ++
  "|Company|Timestamp|Link|\n" ++
  "|---|---|---|\n"

/-- Python `s.count('\n')`: occurrences of the newline character. -/
def countNL (s : String) : Nat :=
  s.data.count '\n'

/-- The body text `get_final_string` produces for a list of rows:
`'\n'.join(rows)`. -/
def renderBody (rows : List String) : String :=
  (pyJoin ['\n'] (rows.map String.data)).asString

/-- The full file content `update_github_file` stores: `HEADING` plus
the body. -/
def storedContent (now : String) (rows : List String) : String :=
  HEADING now ++ renderBody rows

/-- Recovering the stored rows in `get_exisiting_entries`:
`response.text.replace('\r', '').splitlines()[HEADING.count('\n'):]`. -/
def parseStored (now : String) (content : String) : List String :=
  ((pySplitlines (removeCR content.data)).map List.asString).drop
    (countNL (HEADING now))

/-- Outcome of the GitHub `requests.get`: either a response (status,
optional `ETag` header, body text) or a raised
`requests.exceptions.RequestException`. -/
inductive HttpGetResult where
  | response (status : Nat) (etag : Option String) (text : String)
  | requestError
deriving DecidableEq

/-- `get_exisiting_entries`: on status 200, return the stored rows
below the heading together with the `ETag` header; on any other status,
or on a raised request exception, return `(None, None)`. -/
def get_exisiting_entries (now : String) (res : HttpGetResult) :
    Option (List String) × Option String :=
  match res with
  | HttpGetResult.response status etag text =>
      if status = 200 then (some (parseStored now text), etag)
      else (none, none)
  | HttpGetResult.requestError => (none, none)

/-- The JSON payload `update_github_file` PUTs to the GitHub contents
API.  `content` is modelled before the injective base64 transport
encoding; `sha = none` models JSON `null`. -/
structure Payload where
  message : String
  content : String
  sha : Option String
deriving DecidableEq

/-- Python truthiness of the `current_sha` argument (`None` and the
empty string are falsy). -/
def pyTruthy : Option String → Bool
  | none => false
  | some s => s != ""

/-- `update_github_file`: build the PUT payload.  The message is
`Update`/`Create` by truthiness of `current_sha`; the `sha` field is
`current_sha.strip('"')` when truthy and `None` otherwise. -/
def update_github_file (entries_to_file : String) (current_sha : Option String)
    (now : String) : Payload :=
  { message :=
      if pyTruthy current_sha then "Update " ++ FILE_PATH
      else "Create " ++ FILE_PATH
    content :=
      HEADING now ++ (if entries_to_file != "" then entries_to_file else "")
    sha :=
      if pyTruthy current_sha then some (pyStrip '\"' (current_sha.getD ""))
      else none }

/-- The part of one SEC listing page that the loop body of `get_8ks`
inspects: the `get_filing_info` strings of the qualifying row pairs (in
document order), and the `value` attributes of the `input` elements on
the page (for the next-page check). -/
structure PageHtml where
  rows : List String
  controls : List String
deriving DecidableEq

/-- Outcome of one `session.get` of a listing page: a response with a
status code and page HTML, a raised `requests.Timeout`, or another
raised `requests.RequestException`. -/
inductive FetchOutcome where
  | response (status : Nat) (html : PageHtml)
  | timeout
  | transportError
deriving DecidableEq

/-- The next-page check of `get_8ks`:
`soup.find('input', {'value': f'Next {FILINGS_PER_PAGE}'})`. -/
def hasNextControl (p : PageHtml) : Bool :=
  p.controls.contains ("Next " ++ toString FILINGS_PER_PAGE)

/-- Result of a run of the `while True` loop of `get_8ks`: either the
function returned (`none` models Python's `return None` on a non-200
status, `some s` models `return relevant_filings`), or the given fuel
was exhausted with the loop still running. -/
inductive RunResult where
  | out (r : Option String)
  | fuelOut
deriving DecidableEq

/-- The `while True` loop of `get_8ks`, run on explicit fuel.  The SEC
site is abstracted as a map `listing` from the `start` offset to the
fetch outcome.  Returns the run result together with the list of
offsets requested, in request order.  Timeouts and other request
exceptions are caught, logged, and the loop continues — without
advancing `index`, so the same offset is requested again.  A non-200
status returns `None`; on a 200 page the qualifying rows are appended
to `relevant_filings`, and the loop ends when the page has no
`Next {FILINGS_PER_PAGE}` control, else `index` advances by
`FILINGS_PER_PAGE`. -/
def get_8ksAux (listing : Nat → FetchOutcome) :
    Nat → Nat → String → RunResult × List Nat
  | 0, _, _ => (RunResult.fuelOut, [])
  | fuel + 1, index, relevant_filings =>
      match listing index with
      | FetchOutcome.response status html =>
          if status = 200 then
            let filings := relevant_filings ++ String.join html.rows
            if hasNextControl html then
              let rest := get_8ksAux listing fuel (index + FILINGS_PER_PAGE) filings
              (rest.1, index :: rest.2)
            else (RunResult.out (some filings), [index])
          else (RunResult.out none, [index])
      | FetchOutcome.timeout =>
          let rest := get_8ksAux listing fuel index relevant_filings
          (rest.1, index :: rest.2)
      | FetchOutcome.transportError =>
          let rest := get_8ksAux listing fuel index relevant_filings
          (rest.1, index :: rest.2)

/-- `get_8ks`: start the pagination loop at offset 0 with an empty
`relevant_filings` accumulator. -/
def get_8ks (listing : Nat → FetchOutcome) (fuel : Nat) : RunResult × List Nat :=
  get_8ksAux listing fuel 0 ""

/-- Whether a fetch outcome is a 200 response. -/
def FetchOutcome.ok200 : FetchOutcome → Bool
  | FetchOutcome.response status _ => status == 200
  | _ => false

/-- Whether a fetch outcome is a 200 response whose page carries the
next-page control. -/
def FetchOutcome.nextPage : FetchOutcome → Bool
  | FetchOutcome.response _ html => hasNextControl html
  | _ => false

theorem takeNewer_eq_takeWhile (cutoff : String) (l : List String) :
    takeNewer cutoff l =
      l.takeWhile (fun e => pyStrGt (entryField e 2) cutoff) := by
  induction l with
  | nil => rfl
  | cons e rest ih =>
      unfold takeNewer
      rw [List.takeWhile_cons]
      by_cases h : pyStrGt (entryField e 2) cutoff = true
      · rw [if_pos h, if_pos h, ih]
      · rw [if_neg h, if_neg h]

theorem ltCharsB_iff (x y : List Char) : ltCharsB x y = true ↔ x < y := by
  induction x generalizing y with
  | nil =>
      cases y with
      | nil => exact iff_of_false (by simp [ltCharsB]) (lt_irrefl _)
      | cons b bs => exact iff_of_true rfl (List.nil_lt_cons b bs)
  | cons a as ih =>
      cases y with
      | nil => exact iff_of_false (by simp [ltCharsB]) (List.Lex.not_nil_right _ _)
      | cons b bs =>
          show (if a < b then true else if b < a then false else ltCharsB as bs) = true ↔ _
          rcases lt_trichotomy a b with hab | heq | hba
          · exact iff_of_true (by rw [if_pos hab]) (List.Lex.rel hab)
          · subst heq
            rw [if_neg (lt_irrefl a), if_neg (lt_irrefl a)]
            exact (ih bs).trans List.Lex.cons_iff.symm
          · refine iff_of_false ?_ ?_
            · rw [if_neg (asymm hba), if_pos hba]
              simp
            · intro h
              cases h with
              | cons h2 => exact absurd hba (lt_irrefl a)
              | rel h2 => exact absurd h2 (asymm hba)

theorem pyStrGt_iff (a b : String) : pyStrGt a b = true ↔ b < a := by
  rw [pyStrGt, ltCharsB_iff]
  exact String.lt_iff_toList_lt.symm

theorem pyStrGt_false_iff (a b : String) : pyStrGt a b = false ↔ a ≤ b := by
  rw [← not_lt, ← pyStrGt_iff]
  simp

theorem takeNewer_sublist (cutoff : String) (l : List String) :
    List.Sublist (takeNewer cutoff l) l := by
  rw [takeNewer_eq_takeWhile]
  exact List.takeWhile_sublist _

theorem mem_takeNewer (cutoff : String) (l : List String) (e : String)
    (he : e ∈ takeNewer cutoff l) : cutoff < entryField e 2 := by
  induction l with
  | nil => cases he
  | cons x rest ih =>
      unfold takeNewer at he
      by_cases h : pyStrGt (entryField x 2) cutoff = true
      · rw [if_pos h] at he
        rcases List.mem_cons.mp he with rfl | hmem
        · exact (pyStrGt_iff _ _).mp h
        · exact ih hmem
      · rw [if_neg h] at he
        cases he

theorem pyStrGt_self (a : String) : pyStrGt a a = false :=
  (pyStrGt_false_iff a a).mpr le_rfl

theorem takeNewer_head_self (s : String) (rest : List String) :
    takeNewer (entryField s 2) (s :: rest) = [] := by
  unfold takeNewer
  rw [pyStrGt_self]
  simp

theorem pairwise_tsGE_of_bool (l : List String)
    (h : l.Pairwise (fun a b => pyStrGt (entryField b 2) (entryField a 2) = false)) :
    l.Pairwise tsGE :=
  h.imp (fun hab => (pyStrGt_false_iff _ _).mp hab)

theorem merge_idem (new_entries old_entries : List String) :
    get_final_list new_entries (get_final_list new_entries old_entries) =
      get_final_list new_entries old_entries := by
  match old_entries with
  | [] =>
      show get_final_list new_entries new_entries = new_entries
      match new_entries with
      | [] => rfl
      | n0 :: ns =>
          show takeNewer (entryField n0 2) (n0 :: ns) ++ (n0 :: ns) = n0 :: ns
          rw [takeNewer_head_self]
          rfl
  | old0 :: olds =>
      rcases h : takeNewer (entryField old0 2) new_entries with _ | ⟨t, ts2⟩
      · have hres : get_final_list new_entries (old0 :: olds) = old0 :: olds := by
          show takeNewer (entryField old0 2) new_entries ++ (old0 :: olds) =
            old0 :: olds
          rw [h]
          rfl
        rw [hres]
        exact hres
      · match new_entries, h with
        | n0 :: ns, h =>
            have ht : t = n0 := by
              unfold takeNewer at h
              by_cases hc : pyStrGt (entryField n0 2) (entryField old0 2) = true
              · rw [if_pos hc] at h
                injection h with h1 h2
                exact h1.symm
              · rw [if_neg hc] at h
                cases h
            subst ht
            have hres : get_final_list (t :: ns) (old0 :: olds) =
                (t :: ts2) ++ (old0 :: olds) := by
              show takeNewer (entryField old0 2) (t :: ns) ++ (old0 :: olds) =
                (t :: ts2) ++ (old0 :: olds)
              rw [h]
            rw [hres]
            show takeNewer (entryField t 2) (t :: ns) ++
                (t :: (ts2 ++ (old0 :: olds))) = (t :: ts2) ++ (old0 :: olds)
            rw [takeNewer_head_self]
            rfl

/-- C1: for every non-empty old record list, the merge takes the cutoff
from the timestamp field of the first (newest) old row, keeps exactly
the maximal front prefix of the new rows whose timestamp field is
strictly greater than the cutoff (a `takeWhile`: it stops at the first
row with timestamp at most the cutoff and never scans past it), and
returns that prefix concatenated with the full old list; and at the
documented boundary example with `old = [{t: 2024-01-02 10:00:00}]` and
three new rows the result is `[new0, old0]`. -/
theorem merge_cutoff_prefix_concat :
    (∀ (new_entries old_entries : List String),
        old_entries ≠ [] →
        recordLines new_entries → recordLines old_entries →
        get_final_list new_entries old_entries =
          new_entries.takeWhile
              (fun e => pyStrGt (entryField e 2)
                (entryField (old_entries.headD "") 2))
            ++ old_entries) ∧
    get_final_list
        ["|New Co A|2024-01-03 09:00:00|[link](https://www.sec.gov/b)|",
         "|New Co B|2024-01-02 10:00:00|[link](https://www.sec.gov/c)|",
         "|New Co C|2024-01-01 08:00:00|[link](https://www.sec.gov/d)|"]
        ["|Old Co|2024-01-02 10:00:00|[link](https://www.sec.gov/a)|"] =
      ["|New Co A|2024-01-03 09:00:00|[link](https://www.sec.gov/b)|",
       "|Old Co|2024-01-02 10:00:00|[link](https://www.sec.gov/a)|"] := by
  constructor
  · intro new_entries old_entries hne _ _
    match old_entries, hne with
    | old0 :: olds, _ =>
        show takeNewer (entryField old0 2) new_entries ++ (old0 :: olds) = _
        rw [takeNewer_eq_takeWhile]
        rfl
  · decide

/-- Closed instance of the universally quantified part of
`merge_cutoff_prefix_concat`. -/
theorem merge_cutoff_prefix_concat_witness :
    get_final_list
        ["|A|2024-01-05 09:00:00|[link](https://www.sec.gov/e)|"]
        ["|B|2024-01-04 08:00:00|[link](https://www.sec.gov/f)|"] =
      (["|A|2024-01-05 09:00:00|[link](https://www.sec.gov/e)|"]).takeWhile
          (fun e => pyStrGt (entryField e 2)
            (entryField "|B|2024-01-04 08:00:00|[link](https://www.sec.gov/f)|" 2))
        ++ ["|B|2024-01-04 08:00:00|[link](https://www.sec.gov/f)|"] :=
  merge_cutoff_prefix_concat.1 _ _ (by decide) (by decide) (by decide)

/-- C10: merging an empty new record list with a non-empty old record
list returns precisely the old list, unchanged and in order. -/
theorem merge_empty_new_preserves_old (old_entries : List String)
    (hne : old_entries ≠ []) (hold : recordLines old_entries) :
    get_final_list [] old_entries = old_entries := by
  match old_entries, hne with
  | old0 :: olds, _ => rfl

/-- Closed instance of `merge_empty_new_preserves_old`. -/
theorem merge_empty_new_preserves_old_witness :
    get_final_list []
        ["|Acme|2024-01-02 10:00:00|[link](https://www.sec.gov/a)|"] =
      ["|Acme|2024-01-02 10:00:00|[link](https://www.sec.gov/a)|"] :=
  merge_empty_new_preserves_old _ (by decide) (by decide)

/-- C6: for a non-empty old record list, the old list is a contiguous
suffix of the merge result, and every old row is in the result. -/
theorem merge_old_list_suffix (new_entries old_entries : List String)
    (hne : old_entries ≠ [])
    (hnew : recordLines new_entries) (hold : recordLines old_entries) :
    List.IsSuffix old_entries (get_final_list new_entries old_entries) ∧
      ∀ e ∈ old_entries, e ∈ get_final_list new_entries old_entries := by
  match old_entries, hne with
  | old0 :: olds, _ =>
      constructor
      · exact ⟨takeNewer (entryField old0 2) new_entries, rfl⟩
      · intro e he
        show e ∈ takeNewer (entryField old0 2) new_entries ++ (old0 :: olds)
        exact List.mem_append.mpr (Or.inr he)

/-- Closed instance of `merge_old_list_suffix`. -/
theorem merge_old_list_suffix_witness :
    List.IsSuffix
        ["|B|2024-01-04 08:00:00|[link](https://www.sec.gov/f)|"]
        (get_final_list
          ["|A|2024-01-05 09:00:00|[link](https://www.sec.gov/e)|"]
          ["|B|2024-01-04 08:00:00|[link](https://www.sec.gov/f)|"]) ∧
      ∀ e ∈ ["|B|2024-01-04 08:00:00|[link](https://www.sec.gov/f)|"],
        e ∈ get_final_list
          ["|A|2024-01-05 09:00:00|[link](https://www.sec.gov/e)|"]
          ["|B|2024-01-04 08:00:00|[link](https://www.sec.gov/f)|"] :=
  merge_old_list_suffix _ _ (by decide) (by decide) (by decide)

/-- C5: the merge is idempotent in the new list — merging the same new
list into an already merged result changes nothing (stated, as the spec
does, under the newest-first precondition on both lists, although the
proof needs no ordering assumption). -/
theorem merge_idempotent (new_entries old_entries : List String)
    (hnew : recordLines new_entries) (hold : recordLines old_entries)
    (hnewSorted : new_entries.Pairwise tsGE)
    (holdSorted : old_entries.Pairwise tsGE) :
    get_final_list new_entries (get_final_list new_entries old_entries) =
      get_final_list new_entries old_entries :=
  merge_idem new_entries old_entries

/-- Closed instance of `merge_idempotent`. -/
theorem merge_idempotent_witness :
    get_final_list
        ["|A|2024-01-05 09:00:00|[link](https://www.sec.gov/e)|",
         "|C|2024-01-03 07:00:00|[link](https://www.sec.gov/g)|"]
        (get_final_list
          ["|A|2024-01-05 09:00:00|[link](https://www.sec.gov/e)|",
           "|C|2024-01-03 07:00:00|[link](https://www.sec.gov/g)|"]
          ["|B|2024-01-04 08:00:00|[link](https://www.sec.gov/f)|"]) =
      get_final_list
        ["|A|2024-01-05 09:00:00|[link](https://www.sec.gov/e)|",
         "|C|2024-01-03 07:00:00|[link](https://www.sec.gov/g)|"]
        ["|B|2024-01-04 08:00:00|[link](https://www.sec.gov/f)|"] :=
  merge_idempotent _ _ (by decide) (by decide)
    (pairwise_tsGE_of_bool _ (by decide)) (pairwise_tsGE_of_bool _ (by decide))

/-- C9: with both inputs newest-first (non-increasing timestamp
fields) and the old list non-empty, the merge result is non-increasing
in the timestamp field — including across the boundary between the
kept new prefix and the old list — and every row of the kept new
prefix (the part of the result that precedes the old list) has
timestamp field strictly greater than the cutoff, so no new row with
timestamp at most the cutoff is included. -/
theorem merge_sorted_invariant (new_entries old_entries : List String)
    (hne : old_entries ≠ [])
    (hnew : recordLines new_entries) (hold : recordLines old_entries)
    (hnewSorted : new_entries.Pairwise tsGE)
    (holdSorted : old_entries.Pairwise tsGE) :
    (get_final_list new_entries old_entries).Pairwise tsGE ∧
      ∀ e ∈ takeNewer (entryField (old_entries.headD "") 2) new_entries,
        entryField (old_entries.headD "") 2 < entryField e 2 := by
  match old_entries, hne, holdSorted with
  | old0 :: olds, _, holdSorted =>
      constructor
      · show (takeNewer (entryField old0 2) new_entries ++
            (old0 :: olds)).Pairwise tsGE
        rw [List.pairwise_append]
        refine ⟨List.Pairwise.sublist (takeNewer_sublist _ _) hnewSorted,
          holdSorted, ?_⟩
        intro a ha b hb
        have ha2 : entryField old0 2 < entryField a 2 := mem_takeNewer _ _ _ ha
        have hb2 : entryField b 2 ≤ entryField old0 2 := by
          rcases List.mem_cons.mp hb with rfl | hb3
          · exact le_rfl
          · exact (List.pairwise_cons.mp holdSorted).1 b hb3
        exact le_trans hb2 (le_of_lt ha2)
      · intro e he
        exact mem_takeNewer _ _ _ he

/-- Closed instance of `merge_sorted_invariant`. -/
theorem merge_sorted_invariant_witness :
    (get_final_list
        ["|A|2024-01-05 09:00:00|[link](https://www.sec.gov/e)|",
         "|C|2024-01-03 07:00:00|[link](https://www.sec.gov/g)|"]
        ["|B|2024-01-04 08:00:00|[link](https://www.sec.gov/f)|"]).Pairwise tsGE ∧
      ∀ e ∈ takeNewer
          (entryField "|B|2024-01-04 08:00:00|[link](https://www.sec.gov/f)|" 2)
          ["|A|2024-01-05 09:00:00|[link](https://www.sec.gov/e)|",
           "|C|2024-01-03 07:00:00|[link](https://www.sec.gov/g)|"],
        entryField "|B|2024-01-04 08:00:00|[link](https://www.sec.gov/f)|" 2 <
          entryField e 2 :=
  merge_sorted_invariant _ _ (by decide) (by decide) (by decide)
    (pairwise_tsGE_of_bool _ (by decide)) (pairwise_tsGE_of_bool _ (by decide))

theorem get_8ksAux_step_last (listing : Nat → FetchOutcome)
    (fuel index : Nat) (acc : String) (status : Nat) (html : PageHtml)
    (hl : listing index = FetchOutcome.response status html)
    (hs : status = 200) (hn : hasNextControl html = false) :
    get_8ksAux listing (fuel + 1) index acc =
      (RunResult.out (some (acc ++ String.join html.rows)), [index]) := by
  subst hs
  simp [get_8ksAux, hl, hn]

theorem get_8ksAux_step_next (listing : Nat → FetchOutcome)
    (fuel index : Nat) (acc : String) (status : Nat) (html : PageHtml)
    (hl : listing index = FetchOutcome.response status html)
    (hs : status = 200) (hn : hasNextControl html = true) :
    get_8ksAux listing (fuel + 1) index acc =
      ((get_8ksAux listing fuel (index + FILINGS_PER_PAGE)
          (acc ++ String.join html.rows)).1,
        index :: (get_8ksAux listing fuel (index + FILINGS_PER_PAGE)
          (acc ++ String.join html.rows)).2) := by
  subst hs
  simp [get_8ksAux, hl, hn]

theorem get_8ksAux_step_bad_status (listing : Nat → FetchOutcome)
    (fuel index : Nat) (acc : String) (status : Nat) (html : PageHtml)
    (hl : listing index = FetchOutcome.response status html)
    (hs : status ≠ 200) :
    get_8ksAux listing (fuel + 1) index acc = (RunResult.out none, [index]) := by
  simp [get_8ksAux, hl, hs]

theorem get_8ksAux_step_timeout (listing : Nat → FetchOutcome)
    (fuel index : Nat) (acc : String)
    (hl : listing index = FetchOutcome.timeout) :
    get_8ksAux listing (fuel + 1) index acc =
      ((get_8ksAux listing fuel index acc).1,
        index :: (get_8ksAux listing fuel index acc).2) := by
  simp [get_8ksAux, hl]

theorem get_8ksAux_step_error (listing : Nat → FetchOutcome)
    (fuel index : Nat) (acc : String)
    (hl : listing index = FetchOutcome.transportError) :
    get_8ksAux listing (fuel + 1) index acc =
      ((get_8ksAux listing fuel index acc).1,
        index :: (get_8ksAux listing fuel index acc).2) := by
  simp [get_8ksAux, hl]

theorem ok200_elim (r : FetchOutcome) (h : r.ok200 = true) :
    ∃ html, r = FetchOutcome.response 200 html := by
  match r, h with
  | FetchOutcome.response status html, h =>
      have hs : status = 200 := by
        simpa [FetchOutcome.ok200] using h
      exact ⟨html, by rw [hs]⟩

theorem index_step_arith (index k m : Nat) :
    index + (k + 1) * m = index + m + k * m := by
  rw [Nat.succ_mul, Nat.add_comm (k * m) m, Nat.add_assoc]

theorem map_offset_range (index m n : Nat) :
    index :: (List.range (n + 1)).map (fun k => index + m + k * m) =
      (List.range (n + 1 + 1)).map (fun k => index + k * m) := by
  rw [List.range_succ_eq_map (n + 1), List.map_cons, List.map_map]
  have hfun : ((fun k => index + k * m) ∘ Nat.succ) =
      (fun k => index + m + k * m) := by
    funext k
    show index + (k + 1) * m = index + m + k * m
    exact index_step_arith index k m
  rw [hfun]
  simp

theorem get_8ksAux_exact_pages (listing : Nat → FetchOutcome) :
    ∀ (n fuel index : Nat) (acc : String),
      n + 1 ≤ fuel →
      (∀ k, k < n + 1 → (listing (index + k * FILINGS_PER_PAGE)).ok200 = true) →
      (∀ k, k + 1 < n + 1 →
        (listing (index + k * FILINGS_PER_PAGE)).nextPage = true) →
      (listing (index + n * FILINGS_PER_PAGE)).nextPage = false →
      (get_8ksAux listing fuel index acc).2 =
          (List.range (n + 1)).map (fun k => index + k * FILINGS_PER_PAGE) ∧
        ∃ s, (get_8ksAux listing fuel index acc).1 = RunResult.out (some s) := by
  intro n
  induction n with
  | zero =>
      intro fuel index acc hfuel hok hnext hlast
      match fuel, hfuel with
      | f + 1, _ =>
          have h0 : (listing index).ok200 = true := by
            have h2 := hok 0 (by omega)
            simpa using h2
          obtain ⟨html, hl⟩ := ok200_elim _ h0
          have hn : hasNextControl html = false := by
            have h2 : (listing index).nextPage = false := by simpa using hlast
            rw [hl] at h2
            simpa [FetchOutcome.nextPage] using h2
          rw [get_8ksAux_step_last listing f index acc 200 html hl rfl hn]
          exact ⟨by simp [List.range_succ], ⟨acc ++ String.join html.rows, rfl⟩⟩
  | succ n ih =>
      intro fuel index acc hfuel hok hnext hlast
      match fuel, hfuel with
      | f + 1, hfuel =>
          have h0 : (listing index).ok200 = true := by
            have h2 := hok 0 (by omega)
            simpa using h2
          obtain ⟨html, hl⟩ := ok200_elim _ h0
          have hn : hasNextControl html = true := by
            have h2 := hnext 0 (by omega)
            rw [show index + 0 * FILINGS_PER_PAGE = index by simp] at h2
            rw [hl] at h2
            simpa [FetchOutcome.nextPage] using h2
          rw [get_8ksAux_step_next listing f index acc 200 html hl rfl hn]
          have hok2 : ∀ k, k < n + 1 →
              (listing (index + FILINGS_PER_PAGE +
                k * FILINGS_PER_PAGE)).ok200 = true := by
            intro k hk
            rw [← index_step_arith]
            exact hok (k + 1) (by omega)
          have hnext2 : ∀ k, k + 1 < n + 1 →
              (listing (index + FILINGS_PER_PAGE +
                k * FILINGS_PER_PAGE)).nextPage = true := by
            intro k hk
            rw [← index_step_arith]
            exact hnext (k + 1) (by omega)
          have hlast2 : (listing (index + FILINGS_PER_PAGE +
              n * FILINGS_PER_PAGE)).nextPage = false := by
            rw [← index_step_arith]
            exact hlast
          obtain ⟨htrace, s, hout⟩ :=
            ih f (index + FILINGS_PER_PAGE) (acc ++ String.join html.rows)
              (by omega) hok2 hnext2 hlast2
          refine ⟨?_, ⟨s, hout⟩⟩
          rw [htrace]
          exact map_offset_range index FILINGS_PER_PAGE n

/-- C8: if the listing has `N` pages — every page responds 200, each of
the first `N - 1` pages carries the `Next {FILINGS_PER_PAGE}` control,
and page `N` does not — then the pagination loop requests exactly the
`N` offsets `0, FILINGS_PER_PAGE, …, (N-1)*FILINGS_PER_PAGE`, in that
order, and then stops, returning the accumulated filings string (for
any fuel budget of at least `N`, i.e. the loop really terminates after
page `N`). -/
theorem pagination_exact_pages (listing : Nat → FetchOutcome) (N fuel : Nat)
    (hN : 0 < N) (hfuel : N ≤ fuel)
    (hok : ∀ k, k < N → (listing (k * FILINGS_PER_PAGE)).ok200 = true)
    (hnext : ∀ k, k < N - 1 →
      (listing (k * FILINGS_PER_PAGE)).nextPage = true)
    (hlast : (listing ((N - 1) * FILINGS_PER_PAGE)).nextPage = false) :
    (get_8ks listing fuel).2 =
        (List.range N).map (fun k => k * FILINGS_PER_PAGE) ∧
      ∃ s, (get_8ks listing fuel).1 = RunResult.out (some s) := by
  match N, hN with
  | n + 1, _ =>
      obtain ⟨ht, hs⟩ := get_8ksAux_exact_pages listing n fuel 0 "" (by omega)
        (by intro k hk; simpa using hok k hk)
        (by intro k hk; simpa using hnext k (by omega))
        (by simpa using hlast)
      constructor
      · show (get_8ksAux listing fuel 0 "").2 = _
        rw [ht]
        simp
      · exact hs

/-- Closed instance of `pagination_exact_pages` on a two-page listing. -/
theorem pagination_exact_pages_witness :
    (get_8ks
        (fun i =>
          if i = 0 then
            FetchOutcome.response 200
              { rows := ["|A|2024-01-05 09:00:00|[link](https://www.sec.gov/e)|\n"]
                controls := ["Next 100"] }
          else
            FetchOutcome.response 200 { rows := [], controls := [] })
        2).2 =
      (List.range 2).map (fun k => k * FILINGS_PER_PAGE) ∧
    ∃ s,
      (get_8ks
        (fun i =>
          if i = 0 then
            FetchOutcome.response 200
              { rows := ["|A|2024-01-05 09:00:00|[link](https://www.sec.gov/e)|\n"]
                controls := ["Next 100"] }
          else
            FetchOutcome.response 200 { rows := [], controls := [] })
        2).1 = RunResult.out (some s) :=
  pagination_exact_pages _ 2 2 (by decide) (by decide) (by decide) (by decide)
    (by decide)

/-- C2 counterexample: with a listing whose offset-0 request always
raises `requests.Timeout`, the fetch loop does not treat the timeout as
terminal — it re-requests offset 0 again and again (request trace
`[0, 0, 0]` within a fuel budget of 3) and surfaces no failure,
contradicting the claim that the fetch stops at the first timeout
without re-requesting the same or any further page. -/
theorem pagination_timeout_retries :
    (get_8ks (fun _ => FetchOutcome.timeout) 3).2 = [0, 0, 0] ∧
      (get_8ks (fun _ => FetchOutcome.timeout) 3).1 = RunResult.fuelOut :=
  ⟨rfl, rfl⟩

/-- C2 amended: only a non-success HTTP status is terminal — the run
returns `None` right after requesting that one page; a raised
`requests.Timeout` or other `RequestException` is caught and logged and
the loop then re-requests the very same offset, an automatic retry that
continues for as long as the failure persists. -/
theorem pagination_failure_behaviour
    (listing : Nat → FetchOutcome) (fuel index : Nat) (acc : String) :
    (∀ status html, listing index = FetchOutcome.response status html →
        status ≠ 200 →
        get_8ksAux listing (fuel + 1) index acc =
          (RunResult.out none, [index])) ∧
    (listing index = FetchOutcome.timeout →
        get_8ksAux listing (fuel + 1) index acc =
          ((get_8ksAux listing fuel index acc).1,
            index :: (get_8ksAux listing fuel index acc).2)) ∧
    (listing index = FetchOutcome.transportError →
        get_8ksAux listing (fuel + 1) index acc =
          ((get_8ksAux listing fuel index acc).1,
            index :: (get_8ksAux listing fuel index acc).2)) := by
  refine ⟨?_, ?_, ?_⟩
  · intro status html hl hs
    exact get_8ksAux_step_bad_status listing fuel index acc status html hl hs
  · intro hl
    exact get_8ksAux_step_timeout listing fuel index acc hl
  · intro hl
    exact get_8ksAux_step_error listing fuel index acc hl

/-- Closed instance of `pagination_failure_behaviour`: after a timeout
at offset 0, the continuation requests offset 0 again. -/
theorem pagination_failure_behaviour_witness :
    get_8ksAux (fun _ => FetchOutcome.timeout) (0 + 1) 0 "" =
      ((get_8ksAux (fun _ => FetchOutcome.timeout) 0 0 "").1,
        0 :: (get_8ksAux (fun _ => FetchOutcome.timeout) 0 0 "").2) :=
  (pagination_failure_behaviour (fun _ => FetchOutcome.timeout) 0 0 "").2.1 rfl

/-- C3 counterexample: a 500 server error (with a revision token and a
body present) and a 404 not-found both make `get_exisiting_entries`
return `(None, None)` — the server error is treated exactly like an
absent document instead of being surfaced as a distinct failure. -/
theorem read_error_treated_as_absent :
    get_exisiting_entries "2024-01-05 00:00:00"
        (HttpGetResult.response 500 (some "W/\"abc\"") "Internal Server Error") =
      (none, none) ∧
    get_exisiting_entries "2024-01-05 00:00:00"
        (HttpGetResult.response 404 none "Not Found") = (none, none) :=
  ⟨rfl, rfl⟩

/-- C3 amended: the read returns `(None, None)` for every non-200
response — not-found and any other failing status (server error,
authorization error) alike — and for raised request exceptions; only a
200 response returns the stored rows and the ETag revision token.  No
failure is distinguishable from an absent document in the returned
value. -/
theorem read_non200_treated_as_absent (now text : String) (status : Nat)
    (etag : Option String) (hs : status ≠ 200) :
    get_exisiting_entries now (HttpGetResult.response status etag text) =
        (none, none) ∧
      get_exisiting_entries now HttpGetResult.requestError = (none, none) ∧
      get_exisiting_entries now (HttpGetResult.response 200 etag text) =
        (some (parseStored now text), etag) := by
  refine ⟨?_, rfl, ?_⟩
  · simp [get_exisiting_entries, hs]
  · simp [get_exisiting_entries]

/-- Closed instance of `read_non200_treated_as_absent` at status 403. -/
theorem read_non200_treated_as_absent_witness :
    get_exisiting_entries "2024-01-05 00:00:00"
        (HttpGetResult.response 403 (some "tok") "Forbidden") = (none, none) :=
  (read_non200_treated_as_absent "2024-01-05 00:00:00" "Forbidden" 403
    (some "tok") (by decide)).1

/-- C4 counterexample: a revision token that arrives as a quoted ETag —
the string `"abc"` including its double quotes — is not passed back
character for character: the write payload carries `abc`, the token
with the surrounding quotes stripped. -/
theorem write_sha_not_verbatim :
    (update_github_file "|A|1|L|" (some "\"abc\"") "2024-01-05 00:00:00").sha =
        some "abc" ∧
      some "abc" ≠ some "\"abc\"" :=
  ⟨rfl, by decide⟩

/-- C4 amended: a present non-empty token is passed back as
`current_sha.strip('"')` — every leading and trailing double-quote
character removed, all other characters unchanged — with an update
message; an absent (or empty, hence falsy) token yields `sha = None`
and a creation message. -/
theorem write_sha_strip_quotes (entries now : String) :
    (∀ s : String, s ≠ "" →
        (update_github_file entries (some s) now).sha =
            some (pyStrip '\"' s) ∧
          (update_github_file entries (some s) now).message =
            "Update " ++ FILE_PATH) ∧
      (update_github_file entries none now).sha = none ∧
      (update_github_file entries none now).message =
        "Create " ++ FILE_PATH := by
  refine ⟨?_, rfl, rfl⟩
  intro s hs
  have ht : pyTruthy (some s) = true := by
    simp [pyTruthy, hs]
  constructor
  · simp [update_github_file, ht]
  · simp [update_github_file, ht]

/-- Closed instance of `write_sha_strip_quotes`. -/
theorem write_sha_strip_quotes_witness :
    (update_github_file "|A|1|L|" (some "\"v\"") "2024-01-05 00:00:00").sha =
      some (pyStrip '\"' "\"v\"") :=
  ((write_sha_strip_quotes "|A|1|L|" "2024-01-05 00:00:00").1 "\"v\""
    (by decide)).1

theorem data_append (a b : String) : (a ++ b).data = a.data ++ b.data := rfl

theorem asString_data (s : String) : s.data.asString = s := rfl

theorem data_asString (l : List Char) : l.asString.data = l := rfl

theorem removeCR_eq_self (l : List Char) (h : '\r' ∉ l) : removeCR l = l := by
  rw [removeCR, List.filter_eq_self]
  intro a ha
  simp only [ne_eq, decide_eq_true_eq]
  intro hEq
  exact h (hEq ▸ ha)

theorem collapseCRLF_eq_self (l : List Char) (h : '\r' ∉ l) :
    collapseCRLF l = l := by
  induction l with
  | nil => rfl
  | cons x xs ih =>
      simp only [List.mem_cons, not_or] at h
      obtain ⟨hx, hxs⟩ := h
      have hb : (x == '\r') = false := by
        simp only [beq_eq_false_iff_ne, ne_eq]
        intro hh
        exact hx hh.symm
      rw [show collapseCRLF (x :: xs) =
          if x == '\r' && xs.head? == some '\n' then collapseCRLF xs
          else x :: collapseCRLF xs from rfl]
      rw [hb]
      simp [ih hxs]

theorem splitlinesAux_append (m : List Char)
    (h : ∀ c ∈ m, isLineBreak c = false) :
    ∀ (rest acc : List Char),
      splitlinesAux (m ++ rest) acc = splitlinesAux rest (m.reverse ++ acc) := by
  induction m with
  | nil => intro rest acc; simp
  | cons x m ih =>
      intro rest acc
      have hx : isLineBreak x = false := h x (List.mem_cons_self x m)
      have hm : ∀ c ∈ m, isLineBreak c = false := by
        intro c hc
        exact h c (List.mem_cons_of_mem x hc)
      show splitlinesAux (x :: (m ++ rest)) acc = _
      rw [show splitlinesAux (x :: (m ++ rest)) acc =
          splitlinesAux (m ++ rest) (x :: acc) by
        simp [splitlinesAux, hx]]
      rw [ih hm rest (x :: acc)]
      simp

theorem splitlinesAux_newline (xs acc : List Char) :
    splitlinesAux ('\n' :: xs) acc = acc.reverse :: splitlinesAux xs [] := by
  simp [splitlinesAux, isLineBreak]

theorem splitlinesAux_peel (m : List Char)
    (h : ∀ c ∈ m, isLineBreak c = false) (rest acc : List Char) :
    splitlinesAux (m ++ '\n' :: rest) acc =
      (acc.reverse ++ m) :: splitlinesAux rest [] := by
  rw [splitlinesAux_append m h ('\n' :: rest) acc, splitlinesAux_newline]
  simp

theorem splitlinesAux_no_break (m : List Char)
    (h : ∀ c ∈ m, isLineBreak c = false) (hm : m ≠ [])
    (acc : List Char) : splitlinesAux m acc = [acc.reverse ++ m] := by
  rw [show m = m ++ [] by simp, splitlinesAux_append m h [] acc]
  match m, hm with
  | x :: m2, _ =>
      show splitlinesAux [] ((x :: m2).reverse ++ acc) = _
      have hne : (x :: m2).reverse ++ acc ≠ [] := by simp
      match hrev : (x :: m2).reverse ++ acc, hne with
      | y :: ys, _ =>
          show [(y :: ys).reverse] = _
          rw [← hrev]
          simp

theorem pySplitAux_append (c : Char) (m : List Char) (h : c ∉ m) :
    ∀ (rest acc : List Char),
      pySplitAux c (m ++ rest) acc = pySplitAux c rest (m.reverse ++ acc) := by
  induction m with
  | nil => intro rest acc; simp
  | cons x m ih =>
      intro rest acc
      simp only [List.mem_cons, not_or] at h
      obtain ⟨hx, hm⟩ := h
      show pySplitAux c (x :: (m ++ rest)) acc = _
      have hxne : ¬ x = c := fun hh => hx hh.symm
      rw [show pySplitAux c (x :: (m ++ rest)) acc =
          pySplitAux c (m ++ rest) (x :: acc) by simp [pySplitAux, hxne]]
      rw [ih hm rest (x :: acc)]
      simp

theorem pySplitAux_sep (c : Char) (xs acc : List Char) :
    pySplitAux c (c :: xs) acc = acc.reverse :: pySplitAux c xs [] := by
  simp [pySplitAux]

theorem pySplitAux_peel (c : Char) (m : List Char) (h : c ∉ m)
    (rest acc : List Char) :
    pySplitAux c (m ++ c :: rest) acc =
      (acc.reverse ++ m) :: pySplitAux c rest [] := by
  rw [pySplitAux_append c m h (c :: rest) acc, pySplitAux_sep]
  simp

theorem pySplitAux_no_sep (c : Char) (m : List Char) (h : c ∉ m)
    (acc : List Char) : pySplitAux c m acc = [acc.reverse ++ m] := by
  rw [show m = m ++ [] by simp, pySplitAux_append c m h [] acc]
  show [((m.reverse ++ acc)).reverse] = _
  simp

theorem mem_pyJoin (c : Char) (sep : List Char) :
    ∀ (ls : List (List Char)), c ∈ pyJoin sep ls →
      (∃ l ∈ ls, c ∈ l) ∨ c ∈ sep := by
  intro ls
  induction ls with
  | nil => intro h; cases h
  | cons x xs ih =>
      match xs, ih with
      | [], _ =>
          intro h
          exact Or.inl ⟨x, List.mem_singleton_self x, h⟩
      | y :: ys, ih =>
          intro h
          show _
          rw [show pyJoin sep (x :: y :: ys) = x ++ sep ++ pyJoin sep (y :: ys)
            from rfl] at h
          rcases List.mem_append.mp h with h2 | h2
          · rcases List.mem_append.mp h2 with h3 | h3
            · exact Or.inl ⟨x, List.mem_cons_self x (y :: ys), h3⟩
            · exact Or.inr h3
          · rcases ih h2 with ⟨l, hl, hcl⟩ | h3
            · exact Or.inl ⟨l, List.mem_cons_of_mem x hl, hcl⟩
            · exact Or.inr h3

theorem splitlines_pyJoin (ls : List (List Char))
    (h : ∀ l ∈ ls, (∀ c ∈ l, isLineBreak c = false) ∧ l ≠ []) :
    splitlinesAux (pyJoin ['\n'] ls) [] = ls := by
  induction ls with
  | nil => rfl
  | cons x xs ih =>
      match xs, ih with
      | [], _ =>
          show splitlinesAux x [] = [x]
          obtain ⟨hx1, hx2⟩ := h x (List.mem_singleton_self x)
          rw [splitlinesAux_no_break x hx1 hx2]
          simp
      | y :: ys, ih =>
          obtain ⟨hx1, _⟩ := h x (List.mem_cons_self x (y :: ys))
          have h2 : ∀ l ∈ y :: ys, (∀ c ∈ l, isLineBreak c = false) ∧ l ≠ [] := by
            intro l hl
            exact h l (List.mem_cons_of_mem x hl)
          show splitlinesAux (x ++ ['\n'] ++ pyJoin ['\n'] (y :: ys)) [] = _
          rw [List.append_assoc, List.singleton_append,
            splitlinesAux_peel x hx1 (pyJoin ['\n'] (y :: ys)) []]
          rw [ih h2]
          simp

theorem pipe_data : "|".data = ['|'] := rfl

theorem recordLine_data_shape (r : Record) :
    (recordLine r).data =
      '|' :: (r.name.data ++ '|' :: (r.timestamp.data ++ '|' ::
        (r.link.data ++ ['|']))) := by
  show ("|" ++ r.name ++ "|" ++ r.timestamp ++ "|" ++ r.link ++ "|").data = _
  simp only [data_append, pipe_data, List.append_assoc, List.singleton_append,
    List.cons_append, List.nil_append]

theorem pySplit_recordLine (r : Record) (h : goodRecord r) :
    pySplit '|' (recordLine r).data =
      [[], r.name.data, r.timestamp.data, r.link.data, []] := by
  obtain ⟨⟨hn, _⟩, ⟨ht, _⟩, ⟨hl, _⟩⟩ := h
  rw [pySplit, recordLine_data_shape, pySplitAux_sep,
    pySplitAux_peel '|' r.name.data hn, pySplitAux_peel '|' r.timestamp.data ht]
  rw [show r.link.data ++ ['|'] = r.link.data ++ '|' :: [] from rfl,
    pySplitAux_peel '|' r.link.data hl]
  rfl

theorem parseLine_recordLine (r : Record) (h : goodRecord r) :
    parseLine (recordLine r) = r := by
  have hs := pySplit_recordLine r h
  show ({ name := entryField (recordLine r) 1
          timestamp := entryField (recordLine r) 2
          link := entryField (recordLine r) 3 } : Record) = r
  simp only [entryField, hs]
  show ({ name := r.name.data.asString
          timestamp := r.timestamp.data.asString
          link := r.link.data.asString } : Record) = r
  simp only [asString_data]

theorem nl_data : "\n".data = ['\n'] := rfl

theorem nlnl_data : "\n\n".data = ['\n', '\n'] := rfl

theorem tableHeader_data :
    "|Company|Timestamp|Link|\n".data =
      "|Company|Timestamp|Link|".data ++ ['\n'] := by decide

theorem tableSep_data :
    "|---|---|---|\n".data = "|---|---|---|".data ++ ['\n'] := by decide

theorem heading_data_append (now : String) (body : List Char) :
    (HEADING now).data ++ body =
      ("# List of Form 8-Ks with item " ++ ITEM).data ++ '\n' ::
        (("Last checked " ++ now).data ++ '\n' :: ('\n' ::
          ("|Company|Timestamp|Link|".data ++ '\n' ::
            ("|---|---|---|".data ++ '\n' :: body)))) := by
  show ("# List of Form 8-Ks with item " ++ ITEM ++ "\n" ++ "Last checked " ++
      now ++ "\n\n" ++ "|Company|Timestamp|Link|\n" ++
      "|---|---|---|\n").data ++ body = _
  simp only [data_append, nl_data, nlnl_data, tableHeader_data, tableSep_data,
    List.append_assoc, List.cons_append, List.singleton_append, List.nil_append]

theorem countNL_heading (now : String) (h : '\n' ∉ now.data) :
    countNL (HEADING now) = 5 := by
  have h0 : now.data.count '\n' = 0 := List.count_eq_zero.mpr h
  have c1 : ("# List of Form 8-Ks with item " ++ ITEM).data.count '\n' = 0 := by
    decide
  have c2 : "Last checked ".data.count '\n' = 0 := by decide
  have c3 : "|Company|Timestamp|Link|".data.count '\n' = 0 := by decide
  have c4 : "|---|---|---|".data.count '\n' = 0 := by decide
  have c2' : ("Last checked " ++ now).data.count '\n' = 0 := by
    rw [data_append, List.count_append, c2, h0]
  have hd : (HEADING now).data = (HEADING now).data ++ [] := by simp
  rw [countNL, hd, heading_data_append now []]
  simp only [List.count_append, List.count_cons, List.count_nil, c1, c2', c3,
    c4]
  decide

theorem recordLine_mem_cases (c : Char) (r : Record)
    (hmem : c ∈ (recordLine r).data) :
    c = '|' ∨ c ∈ r.name.data ∨ c ∈ r.timestamp.data ∨ c ∈ r.link.data := by
  rw [recordLine_data_shape] at hmem
  rcases List.mem_cons.mp hmem with h4 | h4
  · exact Or.inl h4
  rcases List.mem_append.mp h4 with h5 | h5
  · exact Or.inr (Or.inl h5)
  rcases List.mem_cons.mp h5 with h6 | h6
  · exact Or.inl h6
  rcases List.mem_append.mp h6 with h7 | h7
  · exact Or.inr (Or.inr (Or.inl h7))
  rcases List.mem_cons.mp h7 with h8 | h8
  · exact Or.inl h8
  rcases List.mem_append.mp h8 with h9 | h9
  · exact Or.inr (Or.inr (Or.inr h9))
  · exact Or.inl (List.mem_singleton.mp h9)

theorem heading_no_cr (now : String) (h : '\r' ∉ now.data) :
    '\r' ∉ (HEADING now).data := by
  have hd : (HEADING now).data = (HEADING now).data ++ [] := by simp
  rw [hd, heading_data_append now []]
  have d1 : '\r' ∉ ("# List of Form 8-Ks with item " ++ ITEM).data := by decide
  have d2 : '\r' ∉ "Last checked ".data := by decide
  have d3 : '\r' ∉ "|Company|Timestamp|Link|".data := by decide
  have d4 : '\r' ∉ "|---|---|---|".data := by decide
  have dn : ('\r' : Char) ≠ '\n' := by decide
  intro hmem
  rcases List.mem_append.mp hmem with h1 | h1
  · exact d1 h1
  rcases List.mem_cons.mp h1 with h2 | h2
  · exact dn h2
  rcases List.mem_append.mp h2 with h3 | h3
  · rw [data_append] at h3
    rcases List.mem_append.mp h3 with h3a | h3a
    · exact d2 h3a
    · exact h h3a
  rcases List.mem_cons.mp h3 with h4 | h4
  · exact dn h4
  rcases List.mem_cons.mp h4 with h5 | h5
  · exact dn h5
  rcases List.mem_append.mp h5 with h6 | h6
  · exact d3 h6
  rcases List.mem_cons.mp h6 with h7 | h7
  · exact dn h7
  rcases List.mem_append.mp h7 with h8 | h8
  · exact d4 h8
  rcases List.mem_cons.mp h8 with h9 | h9
  · exact dn h9
  · cases h9

theorem storedContent_data (now : String) (rows : List String) :
    (storedContent now rows).data =
      (HEADING now).data ++ pyJoin ['\n'] (rows.map String.data) := by
  show (HEADING now ++ renderBody rows).data = _
  rw [data_append, renderBody, data_asString]

theorem parseStored_storedContent (now : String) (rows : List String)
    (hnow : ∀ c ∈ now.data, isLineBreak c = false)
    (hrows : ∀ l ∈ rows,
      (∀ c ∈ l.data, isLineBreak c = false) ∧ l.data ≠ []) :
    parseStored now (storedContent now rows) = rows := by
  have hnowNL : '\n' ∉ now.data := fun hm =>
    absurd (hnow '\n' hm) (by decide)
  have hnowCR : '\r' ∉ now.data := fun hm =>
    absurd (hnow '\r' hm) (by decide)
  have hbodyCR : '\r' ∉ pyJoin ['\n'] (rows.map String.data) := by
    intro hmem
    rcases mem_pyJoin '\r' ['\n'] _ hmem with ⟨l, hl, hcl⟩ | hsep
    · rcases List.mem_map.mp hl with ⟨s, hs, rfl⟩
      exact absurd ((hrows s hs).1 '\r' hcl) (by decide)
    · exact (by decide : ('\r' : Char) ∉ ['\n']) hsep
  have hnoCR : '\r' ∉ (storedContent now rows).data := by
    rw [storedContent_data]
    intro hmem
    rcases List.mem_append.mp hmem with h1 | h1
    · exact heading_no_cr now hnowCR h1
    · exact hbodyCR h1
  have hA : ∀ c ∈ ("# List of Form 8-Ks with item " ++ ITEM).data,
      isLineBreak c = false := by decide
  have hB : ∀ c ∈ ("Last checked " ++ now).data, isLineBreak c = false := by
    rw [data_append]
    intro c hmem
    rcases List.mem_append.mp hmem with h1 | h1
    · exact (by decide : ∀ c ∈ "Last checked ".data, isLineBreak c = false)
        c h1
    · exact hnow c h1
  have hC : ∀ c ∈ "|Company|Timestamp|Link|".data, isLineBreak c = false := by
    decide
  have hD : ∀ c ∈ "|---|---|---|".data, isLineBreak c = false := by decide
  have hcond : ∀ l ∈ rows.map String.data,
      (∀ c ∈ l, isLineBreak c = false) ∧ l ≠ [] := by
    intro l hl
    rcases List.mem_map.mp hl with ⟨s, hs, rfl⟩
    exact ⟨(hrows s hs).1, (hrows s hs).2⟩
  rw [parseStored, removeCR_eq_self _ hnoCR, pySplitlines,
    collapseCRLF_eq_self _ hnoCR, storedContent_data,
    heading_data_append, splitlinesAux_peel _ hA,
    splitlinesAux_peel _ hB, splitlinesAux_newline, splitlinesAux_peel _ hC,
    splitlinesAux_peel _ hD, splitlines_pyJoin (rows.map String.data) hcond,
    countNL_heading now hnowNL]
  simp only [List.map_map]
  have hid : (List.asString ∘ String.data) = id := by
    funext s
    rfl
  simp [hid]

/-- C7: rendering a record list to the markdown-table body (one
`|name|timestamp|link|` line per record, joined by newlines below the
heading) and re-parsing the stored content the way the reader does —
stripping `'\r'`, splitting into lines with Python's `splitlines()`
boundaries, and dropping the `HEADING.count('\n')`-line header block —
recovers exactly the rendered rows, and re-reading the three
`split('|')` fields of each recovered row yields the original record
list field for field.  The record fields must be free of the field
separator `'|'` and of every character `splitlines()` treats as a line
boundary (`\n`, `\r`, `\x0b`, `\x0c`, `\x1c`-`\x1e`, `\x85`,
`\u2028`, `\u2029`), and so must the timestamp interpolated into the
heading. -/
theorem render_reparse_round_trip (now : String) (records : List Record)
    (hnow : ∀ c ∈ now.data, isLineBreak c = false)
    (hrec : ∀ r ∈ records, goodRecord r) :
    parseStored now (storedContent now (records.map recordLine)) =
        records.map recordLine ∧
      (parseStored now (storedContent now (records.map recordLine))).map
          parseLine = records := by
  have hrows : ∀ l ∈ records.map recordLine,
      (∀ c ∈ l.data, isLineBreak c = false) ∧ l.data ≠ [] := by
    intro l hl
    rcases List.mem_map.mp hl with ⟨r, hr, rfl⟩
    obtain ⟨⟨hn1, hn2⟩, ⟨ht1, ht2⟩, ⟨hl1, hl2⟩⟩ := hrec r hr
    constructor
    · intro c hc
      rcases recordLine_mem_cases c r hc with h | h | h | h
      · rw [h]
        decide
      · exact hn2 c h
      · exact ht2 c h
      · exact hl2 c h
    · rw [recordLine_data_shape]
      simp
  have h1 := parseStored_storedContent now (records.map recordLine)
    hnow hrows
  refine ⟨h1, ?_⟩
  rw [h1, List.map_map]
  have h2 : ∀ r ∈ records, (parseLine ∘ recordLine) r = id r := by
    intro r hr
    exact parseLine_recordLine r (hrec r hr)
  rw [List.map_congr_left h2, List.map_id]

/-- Closed instance of `render_reparse_round_trip` on a one-record
list. -/
theorem render_reparse_round_trip_witness :
    parseStored "2024-01-05 00:00:00"
        (storedContent "2024-01-05 00:00:00"
          ([{ name := "Acme Corp"
              timestamp := "2024-01-02 10:00:00"
              link := "[link](https://www.sec.gov/x)" }].map recordLine)) =
        [{ name := "Acme Corp"
           timestamp := "2024-01-02 10:00:00"
           link := "[link](https://www.sec.gov/x)" }].map recordLine ∧
      (parseStored "2024-01-05 00:00:00"
        (storedContent "2024-01-05 00:00:00"
          ([{ name := "Acme Corp"
              timestamp := "2024-01-02 10:00:00"
              link := "[link](https://www.sec.gov/x)" }].map recordLine))).map
          parseLine =
        [{ name := "Acme Corp"
           timestamp := "2024-01-02 10:00:00"
           link := "[link](https://www.sec.gov/x)" }] :=
  render_reparse_round_trip "2024-01-05 00:00:00" _ (by decide) (by decide)
